import Mathlib

/-!
Shallow embedding of `burpsluice.py`, a Burp Suite XML export parser that
aggregates cookie and parameter names (and their observed values) from the
captured HTTP exchanges, then either writes two sorted name lists or looks up
the values recorded for one requested name.

Strings are handled at the `List Char` level so that the Python string
primitives (`strip`, `split`, `lower`, slicing, substring tests) can be
modelled exactly and reasoned about by structural recursion.
-/

/-- Characters removed by Python `str.strip()` with no arguments. -/
def pyWsChar (c : Char) : Bool :=
  c = ' ' || c = '\t' || c = '\n' || c = '\r' || c = '\x0b' || c = '\x0c'

/-- Models Python `str.strip()` on a character list. -/
def pyStripL (l : List Char) : List Char :=
  ((l.dropWhile pyWsChar).reverse.dropWhile pyWsChar).reverse

/-- ASCII lowercase of one character; models Python `str.lower` on the ASCII
header text the tool inspects. -/
def asciiLower (c : Char) : Char :=
  if 'A' ≤ c ∧ c ≤ 'Z' then Char.ofNat (c.toNat + 32) else c

/-- ASCII uppercase of one character; models Python `str.upper` on ASCII. -/
def asciiUpper (c : Char) : Char :=
  if 'a' ≤ c ∧ c ≤ 'z' then Char.ofNat (c.toNat - 32) else c

/-- Models Python `str.lower` (ASCII fragment). -/
def pyLowerL (l : List Char) : List Char := l.map asciiLower

/-- Models Python `str.upper` (ASCII fragment). -/
def pyUpperL (l : List Char) : List Char := l.map asciiUpper

/-- Tests whether `p` is a leading segment of `l`; models Python `str.startswith`. -/
def startsWithL (l p : List Char) : Bool :=
  match p, l with
  | [], _ => true
  | _ :: _, [] => false
  | a :: ps, b :: ls => a == b && startsWithL ls ps

/-- Tests whether `p` occurs contiguously inside `l`; models Python `p in l`. -/
def containsSeq : List Char → List Char → Bool
  | [], p => startsWithL [] p
  | l@(_ :: t), p => startsWithL l p || containsSeq t p

/-- Splits at the first occurrence of `sep`; `some (before, after)` when `sep`
occurs, `none` otherwise. Models Python `str.split(sep, 1)` in the case where
the separator is present. -/
def splitFirstL (sep : Char) : List Char → Option (List Char × List Char)
  | [] => none
  | c :: rest =>
    if c = sep then some ([], rest)
    else (splitFirstL sep rest).map (fun p => (c :: p.1, p.2))

/-- Splits on every occurrence of `sep`; models Python `str.split(sep)` for a
one-character separator (empty segments are kept, and the result always has
at least one segment). -/
def splitAllL (sep : Char) : List Char → List (List Char)
  | [] => [[]]
  | c :: rest =>
    if c = sep then [] :: splitAllL sep rest
    else match splitAllL sep rest with
      | [] => [[c]]
      | seg :: segs => (c :: seg) :: segs

/-- Splits at the first occurrence of the multi-character separator `sep`;
models Python `str.split(sep, 1)` when the separator is present, `none`
otherwise (matching the `sep in s` guard the source pairs with it). -/
def splitFirstSeqL (sep : List Char) : List Char → Option (List Char × List Char)
  | [] => none
  | l@(c :: rest) =>
    if startsWithL l sep then some ([], l.drop sep.length)
    else (splitFirstSeqL sep rest).map (fun p => (c :: p.1, p.2))

/-- Portion before the first `sep`, or the whole list when `sep` is absent;
models Python `s.split(sep)[0]`. -/
def firstPartL (sep : Char) (l : List Char) : List Char :=
  match splitFirstL sep l with
  | some p => p.1
  | none => l

/-- Structured JSON values as produced by Python `json.loads`, restricted to
integer numerals (the tool only distinguishes scalars from containers, and
every body in the repository's scope uses integer payloads). -/
inductive Json where
  | null
  | bool (b : Bool)
  | num (n : Int)
  | str (s : String)
  | arr (elems : List Json)
  | obj (fields : List (String × Json))

/-- JSON insignificant whitespace characters. -/
def jsonWsChar (c : Char) : Bool :=
  c = ' ' || c = '\t' || c = '\n' || c = '\r'

def skipWsL (l : List Char) : List Char := l.dropWhile jsonWsChar

/-- Decodes one character of a JSON string escape sequence. -/
def escChar (c : Char) : Option Char :=
  if c = '"' then some '"'
  else if c = '\\' then some '\\'
  else if c = '/' then some '/'
  else if c = 'n' then some '\n'
  else if c = 't' then some '\t'
  else if c = 'r' then some '\r'
  else if c = 'b' then some '\x08'
  else if c = 'f' then some '\x0c'
  else none

/-- Parses the remainder of a JSON string literal (the opening quote already
consumed), returning the decoded characters and the rest of the input. -/
def parseStrChars : List Char → Option (List Char × List Char)
  | [] => none
  | ['\\'] => none
  | '\\' :: e :: rest =>
    match escChar e with
    | some d => (parseStrChars rest).map (fun p => (d :: p.1, p.2))
    | none => none
  | c :: rest =>
    if c = '"' then some ([], rest)
    else (parseStrChars rest).map (fun p => (c :: p.1, p.2))

def natOfDigits (ds : List Char) : Nat :=
  ds.foldl (fun n c => 10 * n + (c.toNat - 48)) 0

/-- Detects a fractional or exponent continuation, which lies outside the
integer-numeral fragment modelled here. -/
def numTailBad : List Char → Bool
  | '.' :: _ => true
  | 'e' :: _ => true
  | 'E' :: _ => true
  | _ => false

def parseIntCore (m : List Char) : Option (Nat × List Char) :=
  let ds := m.takeWhile Char.isDigit
  let rest := m.dropWhile Char.isDigit
  if ds.isEmpty || numTailBad rest then none else some (natOfDigits ds, rest)

def parseIntLit (l : List Char) : Option (Int × List Char) :=
  match l with
  | '-' :: m => (parseIntCore m).map (fun p => (-(p.1 : Int), p.2))
  | _ => (parseIntCore l).map (fun p => ((p.1 : Int), p.2))

mutual

def parseJVal : Nat → List Char → Option (Json × List Char)
  | 0, _ => none
  | fuel + 1, input =>
    match skipWsL input with
    | '\x7b' :: rest =>
      (match skipWsL rest with
       | '\x7d' :: r2 => some (Json.obj [], r2)
       | r => (parseJMembers fuel r).map (fun p => (Json.obj p.1, p.2)))
    | '[' :: rest =>
      (match skipWsL rest with
       | ']' :: r2 => some (Json.arr [], r2)
       | r => (parseJElems fuel r).map (fun p => (Json.arr p.1, p.2)))
    | '"' :: rest => (parseStrChars rest).map (fun p => (Json.str (String.mk p.1), p.2))
    | 't' :: 'r' :: 'u' :: 'e' :: rest => some (Json.bool true, rest)
    | 'f' :: 'a' :: 'l' :: 's' :: 'e' :: rest => some (Json.bool false, rest)
    | 'n' :: 'u' :: 'l' :: 'l' :: rest => some (Json.null, rest)
    | l => (parseIntLit l).map (fun p => (Json.num p.1, p.2))

def parseJMembers : Nat → List Char → Option (List (String × Json) × List Char)
  | 0, _ => none
  | fuel + 1, input =>
    match skipWsL input with
    | '"' :: rest =>
      (match parseStrChars rest with
       | none => none
       | some (key, r2) =>
         match skipWsL r2 with
         | ':' :: r3 =>
           (match parseJVal fuel r3 with
            | none => none
            | some (v, r4) =>
              match skipWsL r4 with
              | ',' :: r5 =>
                (parseJMembers fuel r5).map (fun p => ((String.mk key, v) :: p.1, p.2))
              | '\x7d' :: r5 => some ([(String.mk key, v)], r5)
              | _ => none)
         | _ => none)
    | _ => none

def parseJElems : Nat → List Char → Option (List Json × List Char)
  | 0, _ => none
  | fuel + 1, input =>
    match parseJVal fuel input with
    | none => none
    | some (v, r) =>
      match skipWsL r with
      | ',' :: r2 => (parseJElems fuel r2).map (fun p => (v :: p.1, p.2))
      | ']' :: r2 => some ([v], r2)
      | _ => none

end

def jsonLoadsL (l : List Char) : Option Json :=
  match parseJVal (l.length + 1) l with
  | some (j, rest) => if skipWsL rest = [] then some j else none
  | none => none

/-- Models Python `json.loads` on the JSON fragment the tool distinguishes
(objects, arrays, strings with simple escapes, integer numerals, booleans,
null); out-of-fragment or malformed input is rejected, matching the
`json.JSONDecodeError` path in the source. -/
def jsonLoads (s : String) : Option Json := jsonLoadsL s.toList

/-- Aggregate State of `BurpParser.__init__`: the name sets `self.cookies` /
`self.params` and the value mappings `self.cookie_values` / `self.param_values`
(a defaultdict of sets, represented here as a set of (name, value) pairs —
a key is present in the defaultdict exactly when some pair carries it, which
matches the program since every insertion adds a value together with its key).
-/
structure AggState where
  cookies : Finset String
  params : Finset String
  cookieValues : Finset (String × String)
  paramValues : Finset (String × String)
deriving DecidableEq

def emptyState : AggState := ⟨∅, ∅, ∅, ∅⟩

/-- One `self.cookies.add` / `self.cookie_values[name].add(value)` step. -/
def addCookiePair (s : AggState) (n v : String) : AggState :=
  { s with cookies := insert n s.cookies, cookieValues := insert (n, v) s.cookieValues }

/-- One `self.params.add` / `self.param_values[name].add(value)` step. -/
def addParamPair (s : AggState) (n v : String) : AggState :=
  { s with params := insert n s.params, paramValues := insert (n, v) s.paramValues }

/-- One bare `self.params.add(key)` step (no value recorded). -/
def addParamName (s : AggState) (n : String) : AggState :=
  { s with params := insert n s.params }

/-- Componentwise union of two aggregate states. -/
def joinState (a b : AggState) : AggState :=
  ⟨a.cookies ∪ b.cookies, a.params ∪ b.params,
   a.cookieValues ∪ b.cookieValues, a.paramValues ∪ b.paramValues⟩

/-- Processing of one header line inside `BurpParser.parse_cookies`: the
`cookie:` branch strips the remainder, splits on `;` and records each
`=`-bearing segment split at its first `=` with both halves stripped; the
`set-cookie:` branch strips the remainder, requires an `=`, splits at the
first `=`, and records the stripped name with the value truncated at its
first `;` and stripped. -/
def parseCookiesLine (s : AggState) (line : List Char) : AggState :=
  if startsWithL (pyLowerL line) ("cookie:".toList) then
    (splitAllL ';' (pyStripL (line.drop 7))).foldl (fun st ck =>
      match splitFirstL '=' ck with
      | none => st
      | some p => addCookiePair st (String.mk (pyStripL p.1)) (String.mk (pyStripL p.2))) s
  else if startsWithL (pyLowerL line) ("set-cookie:".toList) then
    match splitFirstL '=' (pyStripL (line.drop 11)) with
    | none => s
    | some p =>
      addCookiePair s (String.mk (pyStripL p.1)) (String.mk (pyStripL (firstPartL ';' p.2)))
  else s

/-- `BurpParser.parse_cookies`: folds `parseCookiesLine` over the
newline-split header block. -/
def parseCookies (s : AggState) (headers : String) : AggState :=
  (splitAllL '\n' headers.toList).foldl parseCookiesLine s

/-- Shared `&`/`=` splitting loop of `BurpParser.parse_query_params` and of the
form branch of `BurpParser.parse_post_data` (their loop bodies are identical):
split on `&`, keep segments containing `=`, split each at the first `=`, and
record the pair when the name part is non-empty. -/
def ampEqExtract (s : AggState) (data : List Char) : AggState :=
  (splitAllL '&' data).foldl (fun st param =>
    match splitFirstL '=' param with
    | none => st
    | some p => if p.1 ≠ [] then addParamPair st (String.mk p.1) (String.mk p.2) else st) s

/-- `BurpParser.parse_query_params`: returns unchanged on an empty query,
otherwise runs the `&`/`=` loop. -/
def parseQueryParams (s : AggState) (query : String) : AggState :=
  if query.toList = [] then s else ampEqExtract s query.toList

/- Recursive JSON flattening of `BurpParser._extract_json_pairs`: every
mapping key is added to the param name set; a scalar value (string, number,
boolean — Python `str`/`int`/`float`/`bool`) is stringified with `str()` and
recorded for that key; mapping or sequence values are recursed into (the
`prefix` argument of the source is threaded but never used in any emission,
so it is omitted); sequence elements are recursed into only when they are
themselves mappings or sequences. -/
mutual

def extractJson (s : AggState) : Json → AggState
  | .obj fields => extractObj s fields
  | .arr elems => extractArr s elems
  | .null => s
  | .bool _ => s
  | .num _ => s
  | .str _ => s

/-- One iteration of the dict loop: the key is always added to the param
names; a scalar value is stringified as Python `str()` does and recorded;
a mapping or sequence value is recursed into. -/
def extractField (s : AggState) (k : String) : Json → AggState
  | .str t => addParamPair (addParamName s k) k t
  | .num n => addParamPair (addParamName s k) k (toString n)
  | .bool b => addParamPair (addParamName s k) k (if b then "True" else "False")
  | .obj fs => extractObj (addParamName s k) fs
  | .arr es => extractArr (addParamName s k) es
  | .null => addParamName s k
termination_by structural j => j

def extractObj (s : AggState) : List (String × Json) → AggState
  | [] => s
  | (k, v) :: rest => extractObj (extractField s k v) rest
termination_by structural l => l

/-- One iteration of the sequence loop: only mapping or sequence elements are
recursed into; scalar elements contribute nothing. -/
def extractItem (s : AggState) : Json → AggState
  | .obj fs => extractObj s fs
  | .arr es => extractArr s es
  | .null => s
  | .bool _ => s
  | .num _ => s
  | .str _ => s
termination_by structural j => j

def extractArr (s : AggState) : List Json → AggState
  | [] => s
  | item :: rest => extractArr (extractItem s item) rest
termination_by structural l => l

end

/-- JSON branch of `BurpParser.parse_post_data`: `json.loads` the body and
flatten it, silently yielding nothing on a parse failure. -/
def jsonBodyExtract (s : AggState) (data : List Char) : AggState :=
  match jsonLoadsL data with
  | some j => extractJson s j
  | none => s

/-- `BurpParser.parse_post_data`: empty data is ignored; if the lowercased
content type contains `form` the `&`/`=` loop runs and the function returns;
otherwise, if the content type contains `json` or the stripped body starts
with a brace or bracket, the body is parsed as JSON and flattened. -/
def parsePostData (s : AggState) (data ct : String) : AggState :=
  if data.toList = [] then s
  else if containsSeq (pyLowerL ct.toList) ("form".toList) then ampEqExtract s data.toList
  else if containsSeq (pyLowerL ct.toList) ("json".toList)
      || startsWithL (pyStripL data.toList) ['\x7b'] || startsWithL (pyStripL data.toList) ['['] then
    jsonBodyExtract s data.toList
  else s

/-- `BurpParser.get_content_type`: the stripped remainder of the first header
line whose lowercase form starts with `content-type:`, or the empty string. -/
def getContentTypeL (headers : List Char) : String :=
  match (splitAllL '\n' headers).find?
      (fun l => startsWithL (pyLowerL l) ("content-type:".toList)) with
  | some l => String.mk (pyStripL (l.drop 13))
  | none => ""

def getContentType (headers : String) : String := getContentTypeL headers.toList

/-- Modelled from the spec: Python `urllib.parse.urlparse(url).query` — the
standard library splits the fragment off at the first `#`, then takes the
text after the first `?` of the remainder as the query (empty when no `?`).
-/
def urlQueryL (url : List Char) : List Char :=
  let noFrag := match splitFirstL '#' url with
    | some p => p.1
    | none => url
  match splitFirstL '?' noFrag with
  | some p => p.2
  | none => []

/-- Request half of the loop body of `BurpParser.parse_burp_xml` (lines
104–128), applied to the decoded request text: split headers from body at the
first `CRLF CRLF` (all headers, empty body when absent), scan cookies, read
the content type, and when the first header line has at least two
space-separated parts, treat them as method and URL: extract the URL query,
and for a `POST` with a non-empty body run `parse_post_data`. -/
def reqHeadersBody (text : String) : List Char × List Char :=
  match splitFirstSeqL ("\r\n\r\n".toList) text.toList with
  | some p => p
  | none => (text.toList, [])

/-- First header line, `headers.split('\n')[0]` (splitting is never empty). -/
def firstLineOf (headers : List Char) : List Char := (splitAllL '\n' headers).headD []

/-- The space-split parts of the first header line, `first_line.split(' ')`. -/
def firstLineParts (headers : List Char) : List (List Char) :=
  splitAllL ' ' (firstLineOf headers)

/-- Uppercased `parts[0]`, the request method. -/
def methodOf (headers : List Char) : List Char := pyUpperL ((firstLineParts headers).headD [])

/-- `parts[1]`, the request URL (only read when at least two parts exist). -/
def urlOf (headers : List Char) : List Char := (firstLineParts headers).getD 1 []

def processRequestHB (s : AggState) (headers body : List Char) : AggState :=
  if firstLineOf headers = [] then parseCookies s (String.mk headers)
  else if (firstLineParts headers).length ≥ 2 then
    if methodOf headers = "POST".toList ∧ body ≠ [] then
      parsePostData
        (parseQueryParams (parseCookies s (String.mk headers))
          (String.mk (urlQueryL (urlOf headers))))
        (String.mk body) (getContentTypeL headers)
    else
      parseQueryParams (parseCookies s (String.mk headers))
        (String.mk (urlQueryL (urlOf headers)))
  else parseCookies s (String.mk headers)

def processRequestText (s : AggState) (text : String) : AggState :=
  processRequestHB s (reqHeadersBody text).1 (reqHeadersBody text).2

/-- Response half of the loop body of `BurpParser.parse_burp_xml` (lines
131–139), applied to the decoded response text: only when the `CRLF CRLF`
separator occurs, read the content type, scan cookies, and when the content
type contains `json` run `parse_post_data` on the body. -/
def processResponseText (s : AggState) (text : String) : AggState :=
  match splitFirstSeqL ("\r\n\r\n".toList) text.toList with
  | none => s
  | some hb =>
    if containsSeq (pyLowerL (getContentTypeL hb.1).toList) ("json".toList) then
      parsePostData (parseCookies s (String.mk hb.1)) (String.mk hb.2) (getContentTypeL hb.1)
    else parseCookies s (String.mk hb.1)

/-- One `item` element of the export: the decoded request and response texts
(`none` models an absent element or a `None`/empty `.text`; base64 decoding
is a pure per-item step, so the walker is modelled on the decoded texts). -/
structure Item where
  request : Option String
  response : Option String
deriving DecidableEq

/-- Loop body of `BurpParser.parse_burp_xml` for one `item`. -/
def processItem (s : AggState) (it : Item) : AggState :=
  let s1 := match it.request with
    | some t => if t = "" then s else processRequestText s t
    | none => s
  match it.response with
  | some t => if t = "" then s1 else processResponseText s1 t
  | none => s1

/-- `BurpParser.parse_burp_xml` on the decoded item list: the single pass that
builds the Aggregate State from the empty state. -/
def parseBurpXml (items : List Item) : AggState :=
  items.foldl processItem emptyState

/-- Values recorded for `k` in one of the pair sets. -/
def valuesFor (pairs : Finset (String × String)) (k : String) : Finset String :=
  (pairs.filter (fun p => p.1 = k)).image Prod.snd

/-- `BurpParser.search_key`: the union of the cookie values and param values
recorded for `key`, sorted ascending. -/
def searchKey (st : AggState) (k : String) : List String :=
  Finset.sort (· ≤ ·) (valuesFor st.cookieValues k ∪ valuesFor st.paramValues k)

/-- ASCII single quote, written via its code point. -/
def sglQuote : String := String.mk [Char.ofNat 39]

/-- The two files written by `BurpParser.save_results`: sorted cookie names
and sorted parameter names, one name per line. -/
def saveResultsFiles (st : AggState) (base : String) : List (String × List String) :=
  [(base ++ "_cookies.txt", Finset.sort (· ≤ ·) st.cookies),
   (base ++ "_parameters.txt", Finset.sort (· ≤ ·) st.params)]

/-- Observable outcome of one program run: exit status, stdout lines, stderr
lines, and the files written with their line contents. -/
structure ProgramResult where
  exitCode : Nat
  stdoutLines : List String
  stderrLines : List String
  filesWritten : List (String × List String)
deriving DecidableEq

/-- Summary-mode tail of `main`: write both files and print the counts. -/
def summaryRun (st : AggState) (base xmlFile : String) : ProgramResult :=
  { exitCode := 0,
    stdoutLines :=
      ["Successfully parsed " ++ xmlFile, "Found:",
       "  " ++ toString st.cookies.card ++ " unique cookies",
       "  " ++ toString st.params.card ++ " unique parameters",
       "", "Results saved with base filename: " ++ base],
    stderrLines := [],
    filesWritten := saveResultsFiles st base }

/-- `main` of `burpsluice.py` as a function of the outcome of
`parse_burp_xml` (an exception from reading/parsing the input is the
`Except.error` case, carrying the exception message) and the parsed
arguments. In lookup mode the single `print` beginning with a newline is two
stdout lines; a `--key` given as the empty string is falsy in Python and
falls through to summary mode. -/
def mainRun (parseResult : Except String AggState) (keyArg : Option String)
    (outputBase xmlFile : String) : ProgramResult :=
  match parseResult with
  | .error e =>
    { exitCode := 1, stdoutLines := [], stderrLines := ["Error: " ++ e], filesWritten := [] }
  | .ok st =>
    match keyArg with
    | some k =>
      if k ≠ "" then
        let vs := searchKey st k
        if vs ≠ [] then
          { exitCode := 0, stdoutLines := vs, stderrLines := [], filesWritten := [] }
        else
          { exitCode := 0,
            stdoutLines := ["", "No values found for key " ++ sglQuote ++ k ++ sglQuote],
            stderrLines := [], filesWritten := [] }
      else summaryRun st outputBase xmlFile
    | none => summaryRun st outputBase xmlFile

theorem joinState_comm (a b : AggState) : joinState a b = joinState b a := by
  simp [joinState, Finset.union_comm]

theorem joinState_assoc (a b c : AggState) :
    joinState (joinState a b) c = joinState a (joinState b c) := by
  simp [joinState, Finset.union_assoc]

theorem joinState_empty_right (s : AggState) : joinState s emptyState = s := by
  cases s; simp [joinState, emptyState]

theorem joinState_empty_left (s : AggState) : joinState emptyState s = s := by
  cases s; simp [joinState, emptyState]

theorem addCookiePair_join (s t : AggState) (n v : String) :
    addCookiePair (joinState s t) n v = joinState s (addCookiePair t n v) := by
  simp [addCookiePair, joinState, Finset.union_insert]

theorem addParamPair_join (s t : AggState) (n v : String) :
    addParamPair (joinState s t) n v = joinState s (addParamPair t n v) := by
  simp [addParamPair, joinState, Finset.union_insert]

theorem addParamName_join (s t : AggState) (n : String) :
    addParamName (joinState s t) n = joinState s (addParamName t n) := by
  simp [addParamName, joinState, Finset.union_insert]

theorem foldl_join {α : Type} (f : AggState → α → AggState)
    (hf : ∀ s t a, f (joinState s t) a = joinState s (f t a)) :
    ∀ (l : List α) (s t : AggState),
      l.foldl f (joinState s t) = joinState s (l.foldl f t) := by
  intro l
  induction l with
  | nil => intro s t; rfl
  | cons a l ih => intro s t; simp only [List.foldl_cons, hf, ih]

theorem parseCookiesLine_join (s t : AggState) (line : List Char) :
    parseCookiesLine (joinState s t) line = joinState s (parseCookiesLine t line) := by
  unfold parseCookiesLine
  split
  · apply foldl_join
    intro s t ck
    cases splitFirstL '=' ck with
    | none => rfl
    | some p => simp only [addCookiePair_join]
  · split
    · cases splitFirstL '=' (pyStripL (line.drop 11)) with
      | none => rfl
      | some p => simp only [addCookiePair_join]
    · rfl

theorem parseCookies_join (s t : AggState) (headers : String) :
    parseCookies (joinState s t) headers = joinState s (parseCookies t headers) := by
  unfold parseCookies
  exact foldl_join _ parseCookiesLine_join _ s t

theorem ampEqExtract_join (s t : AggState) (data : List Char) :
    ampEqExtract (joinState s t) data = joinState s (ampEqExtract t data) := by
  unfold ampEqExtract
  apply foldl_join
  intro s t param
  cases splitFirstL '=' param with
  | none => rfl
  | some p =>
    by_cases hp : p.1 ≠ []
    · simp only [if_pos hp, addParamPair_join]
    · simp only [if_neg hp]

theorem parseQueryParams_join (s t : AggState) (query : String) :
    parseQueryParams (joinState s t) query = joinState s (parseQueryParams t query) := by
  unfold parseQueryParams
  split
  · rfl
  · exact ampEqExtract_join s t _

mutual

theorem extractJson_join (s t : AggState) :
    ∀ j : Json, extractJson (joinState s t) j = joinState s (extractJson t j)
  | .null => by simp only [extractJson]
  | .bool _ => by simp only [extractJson]
  | .num _ => by simp only [extractJson]
  | .str _ => by simp only [extractJson]
  | .arr es => by simp only [extractJson]; exact extractArr_join s t es
  | .obj fs => by simp only [extractJson]; exact extractObj_join s t fs

theorem extractField_join (s t : AggState) (k : String) :
    ∀ j : Json, extractField (joinState s t) k j = joinState s (extractField t k j)
  | .str v => by simp only [extractField, addParamName_join, addParamPair_join]
  | .num n => by simp only [extractField, addParamName_join, addParamPair_join]
  | .bool b => by simp only [extractField, addParamName_join, addParamPair_join]
  | .obj fs => by
    simp only [extractField, addParamName_join]
    exact extractObj_join s (addParamName t k) fs
  | .arr es => by
    simp only [extractField, addParamName_join]
    exact extractArr_join s (addParamName t k) es
  | .null => by simp only [extractField, addParamName_join]

theorem extractObj_join (s t : AggState) :
    ∀ fs : List (String × Json),
      extractObj (joinState s t) fs = joinState s (extractObj t fs)
  | [] => by simp only [extractObj]
  | (k, v) :: rest => by
    simp only [extractObj, extractField_join s t k v]
    exact extractObj_join s (extractField t k v) rest

theorem extractItem_join (s t : AggState) :
    ∀ j : Json, extractItem (joinState s t) j = joinState s (extractItem t j)
  | .null => by simp only [extractItem]
  | .bool _ => by simp only [extractItem]
  | .num _ => by simp only [extractItem]
  | .str _ => by simp only [extractItem]
  | .arr es => by simp only [extractItem]; exact extractArr_join s t es
  | .obj fs => by simp only [extractItem]; exact extractObj_join s t fs

theorem extractArr_join (s t : AggState) :
    ∀ es : List Json, extractArr (joinState s t) es = joinState s (extractArr t es)
  | [] => by simp only [extractArr]
  | item :: rest => by
    simp only [extractArr, extractItem_join s t item]
    exact extractArr_join s (extractItem t item) rest

end

theorem jsonBodyExtract_join (s t : AggState) (data : List Char) :
    jsonBodyExtract (joinState s t) data = joinState s (jsonBodyExtract t data) := by
  unfold jsonBodyExtract
  cases jsonLoadsL data with
  | none => rfl
  | some j => exact extractJson_join s t j

theorem parsePostData_join (s t : AggState) (data ct : String) :
    parsePostData (joinState s t) data ct = joinState s (parsePostData t data ct) := by
  unfold parsePostData
  split
  · rfl
  · split
    · exact ampEqExtract_join s t _
    · split
      · exact jsonBodyExtract_join s t _
      · rfl

theorem processRequestHB_join (s t : AggState) (headers body : List Char) :
    processRequestHB (joinState s t) headers body
      = joinState s (processRequestHB t headers body) := by
  unfold processRequestHB
  split
  · exact parseCookies_join s t _
  · split
    · split
      · rw [parseCookies_join, parseQueryParams_join, parsePostData_join]
      · rw [parseCookies_join, parseQueryParams_join]
    · exact parseCookies_join s t _

theorem processRequestText_join (s t : AggState) (text : String) :
    processRequestText (joinState s t) text = joinState s (processRequestText t text) := by
  unfold processRequestText
  exact processRequestHB_join s t _ _

theorem processResponseText_join (s t : AggState) (text : String) :
    processResponseText (joinState s t) text = joinState s (processResponseText t text) := by
  unfold processResponseText
  cases splitFirstSeqL ("\r\n\r\n".toList) text.toList with
  | none => rfl
  | some hb =>
    simp only []
    split
    · rw [parseCookies_join, parsePostData_join]
    · exact parseCookies_join s t _

theorem processItem_join (s t : AggState) (it : Item) :
    processItem (joinState s t) it = joinState s (processItem t it) := by
  unfold processItem
  cases it.request with
  | none =>
    cases it.response with
    | none => rfl
    | some r =>
      simp only []
      split
      · rfl
      · exact processResponseText_join s t r
  | some q =>
    cases it.response with
    | none =>
      simp only []
      split
      · rfl
      · exact processRequestText_join s t q
    | some r =>
      simp only []
      split
      · split
        · rfl
        · exact processRequestText_join s t q
      · split
        · exact processResponseText_join s t r
        · rw [processRequestText_join, processResponseText_join]

/-- Any state-transformer that acts by joining a contribution computed from
its argument alone commutes with itself, so folding it is insensitive to the
order of the list. -/
theorem foldl_perm {α : Type} (f : AggState → α → AggState)
    (hf : ∀ s t a, f (joinState s t) a = joinState s (f t a))
    {l1 l2 : List α} (h : l1.Perm l2) :
    ∀ s : AggState, l1.foldl f s = l2.foldl f s := by
  have decomp : ∀ (s : AggState) (a : α), f s a = joinState s (f emptyState a) := by
    intro s a
    have := hf s emptyState a
    rwa [joinState_empty_right] at this
  have comm : ∀ (s : AggState) (a b : α), f (f s a) b = f (f s b) a := by
    intro s a b
    rw [decomp s a, decomp (joinState s (f emptyState a)) b, joinState_assoc,
      joinState_comm (f emptyState a) (f emptyState b), ← joinState_assoc,
      ← decomp s b, ← decomp (f s b) a]
  induction h with
  | nil => intro s; rfl
  | cons x h ih => intro s; simp only [List.foldl_cons]; exact ih _
  | swap x y l => intro s; simp only [List.foldl_cons]; rw [comm]
  | trans h1 h2 ih1 ih2 => intro s; rw [ih1, ih2]

/-- Well-formedness invariant of the Aggregate State: every name carrying a
recorded cookie value is in the cookie name set, and every name carrying a
recorded param value is in the param name set. -/
def WFState (s : AggState) : Prop :=
  (∀ p ∈ s.cookieValues, p.1 ∈ s.cookies) ∧ (∀ p ∈ s.paramValues, p.1 ∈ s.params)

theorem WFState_empty : WFState emptyState := by
  constructor <;> intro p hp <;> simp [emptyState] at hp

theorem WFState_join {a b : AggState} (ha : WFState a) (hb : WFState b) :
    WFState (joinState a b) := by
  constructor
  · intro p hp
    simp only [joinState, Finset.mem_union] at hp ⊢
    cases hp with
    | inl h => exact Or.inl (ha.1 p h)
    | inr h => exact Or.inr (hb.1 p h)
  · intro p hp
    simp only [joinState, Finset.mem_union] at hp ⊢
    cases hp with
    | inl h => exact Or.inl (ha.2 p h)
    | inr h => exact Or.inr (hb.2 p h)

theorem WFState_addCookiePair {s : AggState} (hs : WFState s) (n v : String) :
    WFState (addCookiePair s n v) := by
  constructor
  · intro p hp
    simp only [addCookiePair, Finset.mem_insert] at hp ⊢
    cases hp with
    | inl h => exact Or.inl (by rw [h])
    | inr h => exact Or.inr (hs.1 p h)
  · intro p hp
    exact hs.2 p hp

theorem WFState_addParamPair {s : AggState} (hs : WFState s) (n v : String) :
    WFState (addParamPair s n v) := by
  constructor
  · intro p hp
    exact hs.1 p hp
  · intro p hp
    simp only [addParamPair, Finset.mem_insert] at hp ⊢
    cases hp with
    | inl h => exact Or.inl (by rw [h])
    | inr h => exact Or.inr (hs.2 p h)

theorem WFState_addParamName {s : AggState} (hs : WFState s) (n : String) :
    WFState (addParamName s n) := by
  constructor
  · intro p hp
    exact hs.1 p hp
  · intro p hp
    simp only [addParamName, Finset.mem_insert]
    exact Or.inr (hs.2 p hp)

theorem foldl_WF {α : Type} (f : AggState → α → AggState)
    (hf : ∀ s a, WFState s → WFState (f s a)) :
    ∀ (l : List α) (s : AggState), WFState s → WFState (l.foldl f s) := by
  intro l
  induction l with
  | nil => intro s hs; exact hs
  | cons a l ih => intro s hs; exact ih _ (hf s a hs)

theorem parseCookiesLine_WF {s : AggState} (hs : WFState s) (line : List Char) :
    WFState (parseCookiesLine s line) := by
  unfold parseCookiesLine
  split
  · apply foldl_WF _ _ _ _ hs
    intro s ck hsw
    cases splitFirstL '=' ck with
    | none => exact hsw
    | some p => exact WFState_addCookiePair hsw _ _
  · split
    · cases splitFirstL '=' (pyStripL (line.drop 11)) with
      | none => exact hs
      | some p => exact WFState_addCookiePair hs _ _
    · exact hs

theorem parseCookies_WF {s : AggState} (hs : WFState s) (headers : String) :
    WFState (parseCookies s headers) := by
  unfold parseCookies
  exact foldl_WF _ (fun s l h => parseCookiesLine_WF h l) _ s hs

theorem ampEqExtract_WF {s : AggState} (hs : WFState s) (data : List Char) :
    WFState (ampEqExtract s data) := by
  unfold ampEqExtract
  apply foldl_WF _ _ _ _ hs
  intro s param hsw
  cases splitFirstL '=' param with
  | none => exact hsw
  | some p =>
    dsimp only
    by_cases hp : p.1 ≠ []
    · rw [if_pos hp]; exact WFState_addParamPair hsw _ _
    · rw [if_neg hp]; exact hsw

theorem parseQueryParams_WF {s : AggState} (hs : WFState s) (query : String) :
    WFState (parseQueryParams s query) := by
  unfold parseQueryParams
  split
  · exact hs
  · exact ampEqExtract_WF hs _

mutual

theorem extractJson_WF : ∀ (s : AggState) (j : Json), WFState s → WFState (extractJson s j)
  | s, .null, hs => by simpa only [extractJson] using hs
  | s, .bool _, hs => by simpa only [extractJson] using hs
  | s, .num _, hs => by simpa only [extractJson] using hs
  | s, .str _, hs => by simpa only [extractJson] using hs
  | s, .arr es, hs => by simp only [extractJson]; exact extractArr_WF s es hs
  | s, .obj fs, hs => by simp only [extractJson]; exact extractObj_WF s fs hs

theorem extractField_WF :
    ∀ (s : AggState) (k : String) (j : Json), WFState s → WFState (extractField s k j)
  | s, k, .str v, hs => by
    simp only [extractField]
    exact WFState_addParamPair (WFState_addParamName hs k) k v
  | s, k, .num n, hs => by
    simp only [extractField]
    exact WFState_addParamPair (WFState_addParamName hs k) k (toString n)
  | s, k, .bool b, hs => by
    simp only [extractField]
    exact WFState_addParamPair (WFState_addParamName hs k) k (if b then "True" else "False")
  | s, k, .obj fs, hs => by
    simp only [extractField]
    exact extractObj_WF _ fs (WFState_addParamName hs k)
  | s, k, .arr es, hs => by
    simp only [extractField]
    exact extractArr_WF _ es (WFState_addParamName hs k)
  | s, k, .null, hs => by
    simp only [extractField]
    exact WFState_addParamName hs k

theorem extractObj_WF :
    ∀ (s : AggState) (fs : List (String × Json)), WFState s → WFState (extractObj s fs)
  | s, [], hs => by simpa only [extractObj] using hs
  | s, (k, v) :: rest, hs => by
    simp only [extractObj]
    exact extractObj_WF _ rest (extractField_WF s k v hs)

theorem extractItem_WF : ∀ (s : AggState) (j : Json), WFState s → WFState (extractItem s j)
  | s, .null, hs => by simpa only [extractItem] using hs
  | s, .bool _, hs => by simpa only [extractItem] using hs
  | s, .num _, hs => by simpa only [extractItem] using hs
  | s, .str _, hs => by simpa only [extractItem] using hs
  | s, .arr es, hs => by simp only [extractItem]; exact extractArr_WF s es hs
  | s, .obj fs, hs => by simp only [extractItem]; exact extractObj_WF s fs hs

theorem extractArr_WF : ∀ (s : AggState) (es : List Json), WFState s → WFState (extractArr s es)
  | s, [], hs => by simpa only [extractArr] using hs
  | s, item :: rest, hs => by
    simp only [extractArr]
    exact extractArr_WF _ rest (extractItem_WF s item hs)

end

theorem jsonBodyExtract_WF {s : AggState} (hs : WFState s) (data : List Char) :
    WFState (jsonBodyExtract s data) := by
  unfold jsonBodyExtract
  cases jsonLoadsL data with
  | none => exact hs
  | some j => exact extractJson_WF s j hs

theorem parsePostData_WF {s : AggState} (hs : WFState s) (data ct : String) :
    WFState (parsePostData s data ct) := by
  unfold parsePostData
  split
  · exact hs
  · split
    · exact ampEqExtract_WF hs _
    · split
      · exact jsonBodyExtract_WF hs _
      · exact hs

theorem splitFirstL_eq_some {sep : Char} :
    ∀ {l a b : List Char}, splitFirstL sep l = some (a, b) ↔ l = a ++ sep :: b ∧ sep ∉ a := by
  intro l
  induction l with
  | nil =>
    intro a b
    constructor
    · intro h; simp [splitFirstL] at h
    · intro h; rcases h with ⟨h, _⟩; simp at h
  | cons c rest ih =>
    intro a b
    constructor
    · intro h
      by_cases hc : c = sep
      · simp [splitFirstL, hc] at h
        rcases h with ⟨h1, h2⟩
        subst h1; subst h2; subst hc
        simp
      · simp only [splitFirstL, if_neg hc] at h
        cases hsp : splitFirstL sep rest with
        | none => rw [hsp] at h; simp at h
        | some p =>
          rw [hsp] at h
          simp at h
          rcases h with ⟨h1, h2⟩
          rcases (ih (a := p.1) (b := p.2)).mp (by rw [hsp]) with ⟨hr, hna⟩
          subst h2
          rw [← h1, hr]
          constructor
          · simp
          · simp only [List.mem_cons]
            intro hor
            cases hor with
            | inl he => exact hc he.symm
            | inr hm => exact hna hm
    · intro h
      rcases h with ⟨hl, hna⟩
      cases a with
      | nil =>
        simp at hl
        rcases hl with ⟨h1, h2⟩
        simp [splitFirstL, h1, h2]
      | cons x xs =>
        simp at hl
        rcases hl with ⟨h1, h2⟩
        simp only [List.mem_cons] at hna
        push_neg at hna
        have hx : ¬x = sep := fun he => hna.1 he.symm
        subst h1
        simp only [splitFirstL, if_neg hx]
        rw [(ih (a := xs) (b := b)).mpr ⟨h2, hna.2⟩]
        simp

theorem splitFirstL_eq_none {sep : Char} :
    ∀ {l : List Char}, splitFirstL sep l = none ↔ sep ∉ l := by
  intro l
  induction l with
  | nil => simp [splitFirstL]
  | cons c rest ih =>
    by_cases hc : c = sep
    · simp [splitFirstL, hc]
    · simp only [splitFirstL, if_neg hc, List.mem_cons]
      cases hsp : splitFirstL sep rest with
      | none =>
        constructor
        · intro _ hor
          cases hor with
          | inl he => exact hc he.symm
          | inr hm => exact (ih.mp hsp) hm
        · intro _; rfl
      | some p =>
        constructor
        · intro h; exact Option.noConfusion h
        · intro h
          have : sep ∈ rest := by
            by_contra hmem
            rw [ih.mpr hmem] at hsp
            exact Option.noConfusion hsp
          exact absurd (Or.inr this) h

theorem not_mem_firstPartL (sep : Char) (l : List Char) : sep ∉ firstPartL sep l := by
  unfold firstPartL
  cases hsp : splitFirstL sep l with
  | none => exact splitFirstL_eq_none.mp hsp
  | some p => exact (splitFirstL_eq_some.mp (by rw [hsp])).2

theorem mem_of_mem_pyStripL {c : Char} {l : List Char} (h : c ∈ pyStripL l) : c ∈ l := by
  unfold pyStripL at h
  rw [List.mem_reverse] at h
  have h1 := (List.dropWhile_sublist (l := (l.dropWhile pyWsChar).reverse) (p := pyWsChar)).mem h
  rw [List.mem_reverse] at h1
  exact (List.dropWhile_sublist (l := l) (p := pyWsChar)).mem h1

/-- When the portion of `t` before its first `;` contains `=`, splitting `t`
at its first `=` and then truncating the value at its first `;` recovers
exactly the split of the truncated portion: the set-cookie parsing order in
the code agrees with truncation-first parsing in this case. -/
theorem setCookie_split_agree {t n v : List Char}
    (h : splitFirstL '=' (firstPartL ';' t) = some (n, v)) :
    ∃ w, splitFirstL '=' t = some (n, w) ∧ firstPartL ';' w = v := by
  unfold firstPartL at h
  cases hsp : splitFirstL ';' t with
  | none =>
    rw [hsp] at h
    dsimp only at h
    refine ⟨v, h, ?_⟩
    have hv : ';' ∉ v := by
      intro hm
      have ht := (splitFirstL_eq_some.mp h).1
      have : (';' : Char) ∈ t := by
        rw [ht]; simp [hm]
      exact (splitFirstL_eq_none.mp hsp) this
    unfold firstPartL
    rw [splitFirstL_eq_none.mpr hv]
  | some p =>
    rw [hsp] at h
    dsimp only at h
    rcases splitFirstL_eq_some.mp (by rw [hsp] : splitFirstL ';' t = some (p.1, p.2)) with
      ⟨ht, hns⟩
    rcases splitFirstL_eq_some.mp h with ⟨ha, hne⟩
    have hv : ';' ∉ v := by
      intro hm
      exact hns (by rw [ha]; simp [hm])
    refine ⟨v ++ ';' :: p.2, ?_, ?_⟩
    · apply splitFirstL_eq_some.mpr
      constructor
      · rw [ht, ha]; simp
      · exact hne
    · unfold firstPartL
      rw [splitFirstL_eq_some.mpr ⟨rfl, hv⟩]

theorem foldl_match_filterMap {α β σ : Type} (f : α → Option β) (g : σ → β → σ) :
    ∀ (l : List α) (s : σ),
      l.foldl (fun st a => match f a with | none => st | some b => g st b) s
        = (l.filterMap f).foldl g s := by
  intro l
  induction l with
  | nil => intro s; rfl
  | cons a l ih =>
    intro s
    simp only [List.foldl_cons, List.filterMap_cons]
    cases f a with
    | none => exact ih s
    | some b => simp only [List.foldl_cons]; exact ih (g s b)

theorem cookiePairsFold_cookieValues :
    ∀ (l : List (String × String)) (s : AggState),
      (l.foldl (fun st p => addCookiePair st p.1 p.2) s).cookieValues
        = s.cookieValues ∪ l.toFinset := by
  intro l
  induction l with
  | nil => intro s; simp
  | cons p l ih =>
    intro s
    simp only [List.foldl_cons, ih, List.toFinset_cons]
    simp [addCookiePair, Finset.union_insert, Finset.insert_union]

theorem cookiePairsFold_cookies :
    ∀ (l : List (String × String)) (s : AggState),
      (l.foldl (fun st p => addCookiePair st p.1 p.2) s).cookies
        = s.cookies ∪ (l.map Prod.fst).toFinset := by
  intro l
  induction l with
  | nil => intro s; simp
  | cons p l ih =>
    intro s
    simp only [List.foldl_cons, ih, List.map_cons, List.toFinset_cons]
    simp [addCookiePair, Finset.union_insert, Finset.insert_union]

theorem cookiePairsFold_params :
    ∀ (l : List (String × String)) (s : AggState),
      (l.foldl (fun st p => addCookiePair st p.1 p.2) s).params = s.params := by
  intro l
  induction l with
  | nil => intro s; rfl
  | cons p l ih => intro s; simp only [List.foldl_cons, ih]; rfl

theorem paramPairsFold_paramValues :
    ∀ (l : List (String × String)) (s : AggState),
      (l.foldl (fun st p => addParamPair st p.1 p.2) s).paramValues
        = s.paramValues ∪ l.toFinset := by
  intro l
  induction l with
  | nil => intro s; simp
  | cons p l ih =>
    intro s
    simp only [List.foldl_cons, ih, List.toFinset_cons]
    simp [addParamPair, Finset.union_insert, Finset.insert_union]

theorem paramPairsFold_params :
    ∀ (l : List (String × String)) (s : AggState),
      (l.foldl (fun st p => addParamPair st p.1 p.2) s).params
        = s.params ∪ (l.map Prod.fst).toFinset := by
  intro l
  induction l with
  | nil => intro s; simp
  | cons p l ih =>
    intro s
    simp only [List.foldl_cons, ih, List.map_cons, List.toFinset_cons]
    simp [addParamPair, Finset.union_insert, Finset.insert_union]

/-- Pairs harvested from one `cookie:` header line, as the spec words them for
the request side but with the stripping the code actually performs on both
halves: split the stripped remainder on `;`, keep the segments containing
`=`, split each at its first `=`, and strip both name and value. -/
def cookieLinePairs (line : List Char) : List (String × String) :=
  (splitAllL ';' (pyStripL (line.drop 7))).filterMap
    (fun ck => (splitFirstL '=' ck).map
      (fun p => (String.mk (pyStripL p.1), String.mk (pyStripL p.2))))

theorem parseCookiesLine_cookie_branch (s : AggState) (line : List Char)
    (hpre : startsWithL (pyLowerL line) ("cookie:".toList) = true) :
    parseCookiesLine s line
      = (cookieLinePairs line).foldl (fun st p => addCookiePair st p.1 p.2) s := by
  unfold parseCookiesLine cookieLinePairs
  rw [if_pos hpre]
  rw [← foldl_match_filterMap
    (fun ck => (splitFirstL '=' ck).map
      (fun p => (String.mk (pyStripL p.1), String.mk (pyStripL p.2))))
    (fun st p => addCookiePair st p.1 p.2)]
  apply List.foldl_ext
  intro st ck _
  cases splitFirstL '=' ck with
  | none => rfl
  | some p => rfl

/-- Python `isinstance(value, (str, int, float, bool))`: the scalar JSON values. -/
def isScalar : Json → Bool
  | .str _ => true
  | .num _ => true
  | .bool _ => true
  | _ => false

/-- Python `str()` on a scalar JSON value, as `_extract_json_pairs` applies it. -/
def pyStr : Json → String
  | .str t => t
  | .num n => toString n
  | .bool b => if b then "True" else "False"
  | _ => ""

/-- Query-string pairs as §4.3 of the spec words them: split on `&`, split
each segment at its first `=`, drop segments without `=` or with an empty
name, keep names and values raw. -/
def specQueryPairs (q : List Char) : List (String × String) :=
  (splitAllL '&' q).filterMap
    (fun seg => (splitFirstL '=' seg).bind
      (fun p => if p.1 ≠ [] then some (String.mk p.1, String.mk p.2) else none))

/-- Post-data handling as claim C1 words it: both the form-body and the
JSON-body extractor run against a non-empty body, each applying its own
gating heuristic independently of the other. -/
def postDataBothSpec (s : AggState) (data ct : String) : AggState :=
  if data.toList = [] then s
  else
    (fun s1 =>
      if containsSeq (pyLowerL ct.toList) ("json".toList)
          || startsWithL (pyStripL data.toList) ['\x7b']
          || startsWithL (pyStripL data.toList) ['['] then
        jsonBodyExtract s1 data.toList
      else s1)
    (if containsSeq (pyLowerL ct.toList) ("form".toList) then
        ampEqExtract s data.toList
      else s)

/-- Content type of a response text, as the response half of the walker
computes it (empty when the header/body separator is absent). -/
def respContentType (text : String) : String :=
  match splitFirstSeqL ("\r\n\r\n".toList) text.toList with
  | none => ""
  | some hb => getContentTypeL hb.1

/-- Response handling as claim C2 words it: the response body only ever goes
through the JSON-body extractor path (gated on `json` in the content type),
never through the ampersand/equals form split. -/
def responseJsonOnlySpec (s : AggState) (text : String) : AggState :=
  match splitFirstSeqL ("\r\n\r\n".toList) text.toList with
  | none => s
  | some hb =>
    if containsSeq (pyLowerL (getContentTypeL hb.1).toList) ("json".toList) then
      jsonBodyExtract (parseCookies s (String.mk hb.1)) hb.2
    else parseCookies s (String.mk hb.1)

theorem extractObj_decomp (s : AggState) (fs : List (String × Json)) :
    extractObj s fs = joinState s (extractObj emptyState fs) := by
  have h := extractObj_join s emptyState fs
  rwa [joinState_empty_right] at h

theorem extractArr_decomp (s : AggState) (es : List Json) :
    extractArr s es = joinState s (extractArr emptyState es) := by
  have h := extractArr_join s emptyState es
  rwa [joinState_empty_right] at h

theorem extractField_decomp (s : AggState) (k : String) (j : Json) :
    extractField s k j = joinState s (extractField emptyState k j) := by
  have h := extractField_join s emptyState k j
  rwa [joinState_empty_right] at h

theorem extractObj_params_mono (s : AggState) (fs : List (String × Json)) :
    s.params ⊆ (extractObj s fs).params := by
  rw [extractObj_decomp]
  exact Finset.subset_union_left

theorem extractObj_paramValues_mono (s : AggState) (fs : List (String × Json)) :
    s.paramValues ⊆ (extractObj s fs).paramValues := by
  rw [extractObj_decomp]
  exact Finset.subset_union_left

theorem extractField_params_self (s : AggState) (k : String) (j : Json) :
    k ∈ (extractField s k j).params := by
  cases j with
  | str t => exact Finset.mem_insert_self k _
  | num n => exact Finset.mem_insert_self k _
  | bool b => exact Finset.mem_insert_self k _
  | null => exact Finset.mem_insert_self k _
  | obj fs =>
    simp only [extractField]
    exact extractObj_params_mono _ fs (Finset.mem_insert_self k _)
  | arr es =>
    simp only [extractField]
    rw [extractArr_decomp]
    exact Finset.mem_union_left _ (Finset.mem_insert_self k _)

theorem extractField_paramValues_scalar (s : AggState) (k : String) (j : Json)
    (hj : isScalar j = true) : (k, pyStr j) ∈ (extractField s k j).paramValues := by
  cases j with
  | str t => exact Finset.mem_insert_self _ _
  | num n => exact Finset.mem_insert_self _ _
  | bool b => exact Finset.mem_insert_self _ _
  | null => simp [isScalar] at hj
  | obj fs => simp [isScalar] at hj
  | arr es => simp [isScalar] at hj

theorem extractItem_scalar (s : AggState) (j : Json) (hj : isScalar j = true) :
    extractItem s j = s := by
  cases j with
  | str t => rfl
  | num n => rfl
  | bool b => rfl
  | null => simp [isScalar] at hj
  | obj fs => simp [isScalar] at hj
  | arr es => simp [isScalar] at hj

theorem extractObj_key_mem :
    ∀ (s : AggState) (fs : List (String × Json)) (k : String) (v : Json),
      (k, v) ∈ fs → k ∈ (extractObj s fs).params := by
  intro s fs
  induction fs generalizing s with
  | nil => intro k v h; simp at h
  | cons p rest ih =>
    intro k v h
    simp only [List.mem_cons] at h
    cases h with
    | inl he =>
      subst he
      simp only [extractObj]
      exact extractObj_params_mono _ rest (extractField_params_self s k v)
    | inr hm => simp only [extractObj]; exact ih _ k v hm

theorem extractObj_scalar_value_mem :
    ∀ (s : AggState) (fs : List (String × Json)) (k : String) (v : Json),
      (k, v) ∈ fs → isScalar v = true → (k, pyStr v) ∈ (extractObj s fs).paramValues := by
  intro s fs
  induction fs generalizing s with
  | nil => intro k v h; simp at h
  | cons p rest ih =>
    intro k v h hv
    simp only [List.mem_cons] at h
    cases h with
    | inl he =>
      simp only [extractObj]
      apply extractObj_paramValues_mono
      rw [← he]
      exact extractField_paramValues_scalar s k v hv
    | inr hm => simp only [extractObj]; exact ih _ k v hm hv

theorem ampEqExtract_eq_pairsFold (s : AggState) (data : List Char) :
    ampEqExtract s data
      = (specQueryPairs data).foldl (fun st p => addParamPair st p.1 p.2) s := by
  unfold ampEqExtract specQueryPairs
  rw [← foldl_match_filterMap
    (fun seg => (splitFirstL '=' seg).bind
      (fun p => if p.1 ≠ [] then some (String.mk p.1, String.mk p.2) else none))
    (fun st p => addParamPair st p.1 p.2)]
  apply List.foldl_ext
  intro st seg _
  cases splitFirstL '=' seg with
  | none => rfl
  | some p =>
    dsimp only [Option.bind]
    by_cases hp : p.1 ≠ []
    · rw [if_pos hp, if_pos hp]
    · rw [if_neg hp, if_neg hp]

theorem mem_specQueryPairs {q : List Char} {n v : String} :
    (n, v) ∈ specQueryPairs q ↔
      ∃ seg ∈ splitAllL '&' q, ∃ a b, splitFirstL '=' seg = some (a, b) ∧ a ≠ []
        ∧ n = String.mk a ∧ v = String.mk b := by
  unfold specQueryPairs
  rw [List.mem_filterMap]
  constructor
  · rintro ⟨seg, hseg, hf⟩
    refine ⟨seg, hseg, ?_⟩
    cases hsp : splitFirstL '=' seg with
    | none => rw [hsp] at hf; simp at hf
    | some p =>
      rw [hsp] at hf
      simp only [Option.some_bind] at hf
      by_cases hp : p.1 ≠ []
      · rw [if_pos hp] at hf
        simp only [Option.some.injEq, Prod.mk.injEq] at hf
        exact ⟨p.1, p.2, rfl, hp, hf.1.symm, hf.2.symm⟩
      · rw [if_neg hp] at hf; simp at hf
  · rintro ⟨seg, hseg, a, b, hsp, ha, hn, hv⟩
    refine ⟨seg, hseg, ?_⟩
    rw [hsp]
    simp only [Option.some_bind, if_pos ha]
    rw [hn, hv]

theorem mem_cookieLinePairs {line : List Char} {n v : String} :
    (n, v) ∈ cookieLinePairs line ↔
      ∃ seg ∈ splitAllL ';' (pyStripL (line.drop 7)), ∃ a b,
        splitFirstL '=' seg = some (a, b)
          ∧ n = String.mk (pyStripL a) ∧ v = String.mk (pyStripL b) := by
  unfold cookieLinePairs
  rw [List.mem_filterMap]
  constructor
  · rintro ⟨seg, hseg, hf⟩
    refine ⟨seg, hseg, ?_⟩
    cases hsp : splitFirstL '=' seg with
    | none => rw [hsp] at hf; simp at hf
    | some p =>
      rw [hsp] at hf
      simp only [Option.map_some', Option.some.injEq, Prod.mk.injEq] at hf
      exact ⟨p.1, p.2, rfl, hf.1.symm, hf.2.symm⟩
  · rintro ⟨seg, hseg, a, b, hsp, hn, hv⟩
    refine ⟨seg, hseg, ?_⟩
    rw [hsp, hn, hv]
    rfl

theorem setCookie_not_cookie {l : List Char}
    (h : startsWithL l ("set-cookie:".toList) = true) :
    startsWithL l ("cookie:".toList) = false := by
  cases l with
  | nil => simp [startsWithL] at h
  | cons c rest =>
    have hc : ('s' == c) = true := by
      have : startsWithL (c :: rest) ('s' :: "et-cookie:".toList) = true := h
      simp only [startsWithL, Bool.and_eq_true] at this
      exact this.1
    have hcs : c = 's' := by
      have := of_decide_eq_true hc
      exact this.symm
    subst hcs
    show startsWithL ('s' :: rest) ('c' :: "ookie:".toList) = false
    simp [startsWithL]

/-- The JSON body of the worked example in §8 of the spec. -/
def jsonDemoBody : String := "\x7b\"user\": \x7b\"id\": 5, \"name\": \"bob\"\x7d, \"tags\": [1,2]\x7d"

def jsonDemoState : AggState := parsePostData emptyState jsonDemoBody "application/json"

/-- Claim C5: for the JSON body from §8, the extracted name set is exactly
`{user, id, name, tags}`, with values `{5}` for `id` and `{bob}` for `name`,
nothing for the mapping-valued `user` or the scalar-list-valued `tags`, and no
parent-key-prefixed names; in general every mapping key is recorded as a
name, every scalar mapping value is stringified and recorded, and scalar
sequence elements contribute nothing. -/
theorem claim_C5 :
    (jsonDemoState.params = {"user", "id", "name", "tags"}
      ∧ valuesFor jsonDemoState.paramValues "id" = {"5"}
      ∧ valuesFor jsonDemoState.paramValues "name" = {"bob"}
      ∧ valuesFor jsonDemoState.paramValues "user" = ∅
      ∧ valuesFor jsonDemoState.paramValues "tags" = ∅
      ∧ "user.id" ∉ jsonDemoState.params)
  ∧ (∀ (s : AggState) (fs : List (String × Json)) (k : String) (v : Json),
      (k, v) ∈ fs → k ∈ (extractObj s fs).params)
  ∧ (∀ (s : AggState) (fs : List (String × Json)) (k : String) (v : Json),
      (k, v) ∈ fs → isScalar v = true → (k, pyStr v) ∈ (extractObj s fs).paramValues)
  ∧ (∀ (s : AggState) (j : Json), isScalar j = true → extractItem s j = s) :=
  ⟨⟨by decide, by decide, by decide, by decide, by decide, by decide⟩,
    extractObj_key_mem, extractObj_scalar_value_mem, extractItem_scalar⟩

/-- Witness for C5 at a concrete field list and scalar element. -/
theorem claim_C5_witness :
    ("id", "5") ∈ (extractObj emptyState [("id", Json.num 5)]).paramValues
  ∧ extractItem emptyState (Json.num 1) = emptyState := by
  have h := claim_C5
  exact ⟨h.2.2.1 emptyState [("id", Json.num 5)] "id" (Json.num 5)
      (List.mem_singleton_self _) (by decide),
    h.2.2.2 emptyState (Json.num 1) (by decide)⟩

/-- Claim C8: when reading/parsing the input raises (missing file, malformed
XML, malformed base64), `main` prints `Error: <message>` to standard error,
exits with status 1, and writes no output file. -/
theorem claim_C8 (e : String) (key : Option String) (base xmlFile : String) :
    (mainRun (.error e) key base xmlFile).exitCode = 1
  ∧ (mainRun (.error e) key base xmlFile).stderrLines = ["Error: " ++ e]
  ∧ (mainRun (.error e) key base xmlFile).stdoutLines = []
  ∧ (mainRun (.error e) key base xmlFile).filesWritten = [] :=
  ⟨rfl, rfl, rfl, rfl⟩

/-- Claim C9: the final Aggregate State of the walk is invariant under
permuting the exchanges. -/
theorem claim_C9 (l1 l2 : List Item) (h : l1.Perm l2) :
    parseBurpXml l1 = parseBurpXml l2 := by
  unfold parseBurpXml
  exact foldl_perm processItem processItem_join h emptyState

def permDemoA : Item :=
  { request := some "GET /a?x=1 HTTP/1.1\r\nCookie: c=1\r\n\r\n", response := none }

def permDemoB : Item :=
  { request := some "POST /b HTTP/1.1\r\nContent-Type: application/json\r\n\r\n\x7b\"k\": 7\x7d",
    response := some "HTTP/1.1 200 OK\r\nSet-Cookie: s=9\r\n\r\n" }

/-- Witness for C9: swapping two concrete exchanges leaves the state equal,
and the state is not trivial. -/
theorem claim_C9_witness :
    parseBurpXml [permDemoA, permDemoB] = parseBurpXml [permDemoB, permDemoA]
  ∧ (parseBurpXml [permDemoA, permDemoB]).params = {"x", "k"}
  ∧ (parseBurpXml [permDemoA, permDemoB]).cookies = {"c", "s"} :=
  ⟨claim_C9 _ _ (List.Perm.swap permDemoB permDemoA []), by decide, by decide⟩

/-- A JSON object whose only key carries a mapping value: the key lands in the
param name set with no entry in the param values mapping. -/
def mapValuedDemo : AggState := extractJson emptyState (Json.obj [("user", Json.obj [])])

/-- Claim C10: every extraction operation preserves the invariant that each
name carrying a cookie (resp. param) value is in the cookie (resp. param)
name set; the converse fails, witnessed by a mapping-valued key. -/
theorem claim_C10 (s : AggState) (headers query data ct : String) (j : Json)
    (hs : WFState s) :
    WFState (parseCookies s headers)
  ∧ WFState (parseQueryParams s query)
  ∧ WFState (parsePostData s data ct)
  ∧ WFState (extractJson s j)
  ∧ ("user" ∈ mapValuedDemo.params ∧ mapValuedDemo.paramValues = ∅) :=
  ⟨parseCookies_WF hs headers, parseQueryParams_WF hs query, parsePostData_WF hs data ct,
    extractJson_WF s j hs, by decide, by decide⟩

/-- Witness for C10 at the empty state and concrete inputs. -/
theorem claim_C10_witness :
    WFState (parseCookies emptyState "cookie: a=1")
  ∧ WFState (parsePostData emptyState "a=1&b=2" "application/x-www-form-urlencoded") := by
  have h := claim_C10 emptyState "cookie: a=1" "" "a=1&b=2"
    "application/x-www-form-urlencoded" Json.null WFState_empty
  exact ⟨h.1, h.2.2.1⟩

/-- The query string of the worked example in §8 of the spec. -/
def queryDemo : String := "q=test&q=other&empty="

def queryDemoState : AggState := parseQueryParams emptyState queryDemo

/-- Claim C6: query extraction records exactly the pairs obtained by splitting
on `&` and then at the first `=`, dropping `=`-less or empty-named segments,
raw and undecoded; on the worked example the names are `{q, empty}` with
values `{test, other}` for `q` and `{""}` for `empty`. -/
theorem claim_C6 (s : AggState) (q : List Char) (hq : q ≠ []) :
    ((parseQueryParams s (String.mk q)).paramValues
        = s.paramValues ∪ (specQueryPairs q).toFinset
      ∧ (parseQueryParams s (String.mk q)).params
        = s.params ∪ ((specQueryPairs q).map Prod.fst).toFinset
      ∧ ∀ n v : String, (n, v) ∈ specQueryPairs q ↔
          ∃ seg ∈ splitAllL '&' q, ∃ a b, splitFirstL '=' seg = some (a, b) ∧ a ≠ []
            ∧ n = String.mk a ∧ v = String.mk b)
  ∧ (queryDemoState.params = {"q", "empty"}
      ∧ valuesFor queryDemoState.paramValues "q" = {"test", "other"}
      ∧ valuesFor queryDemoState.paramValues "empty" = {""}) := by
  constructor
  · have hrw : parseQueryParams s (String.mk q) = ampEqExtract s q := by
      unfold parseQueryParams
      exact if_neg hq
    rw [hrw, ampEqExtract_eq_pairsFold]
    exact ⟨paramPairsFold_paramValues _ _, paramPairsFold_params _ _,
      fun n v => mem_specQueryPairs⟩
  · exact ⟨by decide, by decide, by decide⟩

/-- Witness for C6 at the worked example. -/
theorem claim_C6_witness :
    (parseQueryParams emptyState (String.mk ("a=1".toList))).paramValues
      = emptyState.paramValues ∪ (specQueryPairs ("a=1".toList)).toFinset
  ∧ queryDemoState.params = {"q", "empty"} := by
  have h := claim_C6 emptyState ("a=1".toList) (by decide)
  exact ⟨h.1.1, h.2.1⟩

/-- Claim C7: in lookup mode the printed lines are exactly the elements of the
union of the requested name's cookie-value and param-value sets, sorted
ascending without duplicates; when that union is empty the program prints the
`No values found` notice on standard output and still exits with status 0,
writing no files. -/
theorem claim_C7 (st : AggState) (k base xmlFile : String) (hk : k ≠ "") :
    ((∀ v, v ∈ searchKey st k ↔
        v ∈ valuesFor st.cookieValues k ∪ valuesFor st.paramValues k)
      ∧ List.Sorted (· ≤ ·) (searchKey st k)
      ∧ (searchKey st k).Nodup)
  ∧ (searchKey st k ≠ [] →
      mainRun (.ok st) (some k) base xmlFile
        = { exitCode := 0, stdoutLines := searchKey st k,
            stderrLines := [], filesWritten := [] })
  ∧ (valuesFor st.cookieValues k ∪ valuesFor st.paramValues k = ∅ →
      mainRun (.ok st) (some k) base xmlFile
        = { exitCode := 0,
            stdoutLines := ["", "No values found for key " ++ sglQuote ++ k ++ sglQuote],
            stderrLines := [], filesWritten := [] }) := by
  refine ⟨⟨fun v => ?_, ?_, ?_⟩, ?_, ?_⟩
  · unfold searchKey
    exact Finset.mem_sort _
  · exact Finset.sort_sorted _ _
  · exact Finset.sort_nodup _ _
  · intro hvs
    unfold mainRun
    dsimp only
    rw [if_pos hk, if_pos hvs]
  · intro hu
    have hnil : searchKey st k = [] := by
      unfold searchKey
      rw [hu]
      exact Finset.sort_empty _
    unfold mainRun
    dsimp only
    rw [if_pos hk, if_neg (not_not_intro hnil)]

def lookupDemo : AggState := parseCookies emptyState "cookie: a=2; a=1"

/-- Witness for C7: looking up a name recorded only as a cookie prints its
sorted values and exits 0; the notice case fires for an absent name. -/
theorem claim_C7_witness :
    ("a" : String) ≠ ""
  ∧ "1" ∈ searchKey lookupDemo "a"
  ∧ List.Sorted (· ≤ ·) (searchKey lookupDemo "a")
  ∧ (mainRun (.ok lookupDemo) (some "a") "out" "in.xml").exitCode = 0
  ∧ mainRun (.ok lookupDemo) (some "zzz") "out" "in.xml"
      = { exitCode := 0,
          stdoutLines := ["", "No values found for key " ++ sglQuote ++ "zzz" ++ sglQuote],
          stderrLines := [], filesWritten := [] } := by
  have ha := claim_C7 lookupDemo "a" "out" "in.xml" (by decide)
  have hz := claim_C7 lookupDemo "zzz" "out" "in.xml" (by decide)
  have hmem : "1" ∈ searchKey lookupDemo "a" := (ha.1.1 "1").mpr (by decide)
  have hne : searchKey lookupDemo "a" ≠ [] := by
    intro hnil
    rw [hnil] at hmem
    exact absurd hmem (List.not_mem_nil "1")
  refine ⟨by decide, hmem, ha.1.2.1, ?_, hz.2.2 (by decide)⟩
  rw [ha.2.1 hne]

/-- A content type whose lowercase form contains both `form` and `json`. -/
def bothGatesCT : String := "form json"

/-- A JSON body with no `=` character. -/
def bothGatesBody : String := "\x7b\"a\": 1\x7d"

/-- A POST request carrying that content type and body. -/
def bothGatesReq : String :=
  "POST /x HTTP/1.1\r\nContent-Type: form json\r\n\r\n\x7b\"a\": 1\x7d"

/-- Counterexample to claim C1: on a POST body whose content type matches
both gates, running both extractors independently (the spec reading) would
record the JSON name `a`, but the code records nothing — the `return` after
the form branch prevents the JSON gate from ever being evaluated. -/
theorem claim_C1_counterexample :
    "a" ∈ (postDataBothSpec emptyState bothGatesBody bothGatesCT).params
  ∧ "a" ∉ (parsePostData emptyState bothGatesBody bothGatesCT).params
  ∧ "a" ∉ (processRequestText emptyState bothGatesReq).params
  ∧ (jsonLoads bothGatesBody).isSome = true :=
  ⟨by decide, by decide, by decide, by decide⟩

/-- Amended claim C1: the form gate is checked first and its match is final —
when the content type contains `form` only the ampersand/equals extractor
runs, and the JSON extractor runs only when the form gate fails. -/
theorem claim_C1_form_priority (s : AggState) (data ct : String) :
    (containsSeq (pyLowerL ct.toList) ("form".toList) = true →
      parsePostData s data ct
        = if data.toList = [] then s else ampEqExtract s data.toList)
  ∧ (containsSeq (pyLowerL ct.toList) ("form".toList) = false →
     containsSeq (pyLowerL ct.toList) ("json".toList) = true →
      parsePostData s data ct
        = if data.toList = [] then s else jsonBodyExtract s data.toList) := by
  constructor
  · intro hform
    unfold parsePostData
    by_cases hd : data.toList = []
    · rw [if_pos hd, if_pos hd]
    · rw [if_neg hd, if_neg hd, if_pos hform]
  · intro hform hjson
    unfold parsePostData
    by_cases hd : data.toList = []
    · rw [if_pos hd, if_pos hd]
    · rw [if_neg hd, if_neg hd, if_neg (by rw [hform]; exact Bool.false_ne_true),
          if_pos (by rw [Bool.or_eq_true, Bool.or_eq_true]; exact Or.inl (Or.inl hjson))]

/-- Witness for the amended C1 at concrete inputs on both sides of the gate. -/
theorem claim_C1_witness :
    parsePostData emptyState "x=1" "form json" = ampEqExtract emptyState ("x=1".toList)
  ∧ parsePostData emptyState "x=1" "application/json"
      = jsonBodyExtract emptyState ("x=1".toList) := by
  constructor
  · have h := (claim_C1_form_priority emptyState "x=1" "form json").1 (by decide)
    rw [h, if_neg (by decide)]
  · have h := (claim_C1_form_priority emptyState "x=1" "application/json").2
      (by decide) (by decide)
    rw [h, if_neg (by decide)]

/-- A response whose content type contains both `json` and `form`, with a
form-shaped body. -/
def bothGatesResp : String := "HTTP/1.1 200 OK\r\nContent-Type: json+form\r\n\r\na=1&b=2"

/-- A response with a plain JSON content type. -/
def jsonResp : String :=
  "HTTP/1.1 200 OK\r\nContent-Type: application/json\r\n\r\n\x7b\"a\": 1\x7d"

/-- Counterexample to claim C2: for a response content type containing both
`json` and `form`, the code records the pair (`a`, `1`) from the
ampersand/equals form split of the response body, although the body is not
JSON at all — so a response body is not always confined to the JSON path. -/
theorem claim_C2_counterexample :
    ("a", "1") ∈ (processResponseText emptyState bothGatesResp).paramValues
  ∧ ("a", "1") ∉ (responseJsonOnlySpec emptyState bothGatesResp).paramValues
  ∧ (jsonLoads "a=1&b=2").isNone = true
  ∧ containsSeq (pyLowerL (respContentType bothGatesResp).toList) ("json".toList) = true :=
  ⟨by decide, by decide, by decide, by decide⟩

/-- Amended claim C2: when the response content type does not contain `form`,
the response body only ever goes through the JSON-body extractor path; a
content type containing both `json` and `form` instead routes the body
through the form split, because `parse_post_data` checks the form gate
first. -/
theorem claim_C2_json_only_when_no_form (s : AggState) (text : String)
    (hform : containsSeq (pyLowerL (respContentType text).toList) ("form".toList) = false) :
    processResponseText s text = responseJsonOnlySpec s text := by
  unfold respContentType at hform
  unfold processResponseText responseJsonOnlySpec
  cases hsp : splitFirstSeqL ("\r\n\r\n".toList) text.toList with
  | none => rfl
  | some hb =>
    rw [hsp] at hform
    dsimp only at hform
    dsimp only
    by_cases hj : containsSeq (pyLowerL (getContentTypeL hb.1).toList) ("json".toList) = true
    · rw [if_pos hj, if_pos hj]
      unfold parsePostData
      by_cases hd : (String.mk hb.2).toList = []
      · rw [if_pos hd]
        have hb2 : hb.2 = [] := hd
        rw [hb2]
        rfl
      · rw [if_neg hd, if_neg (by rw [hform]; exact Bool.false_ne_true),
            if_pos (by rw [Bool.or_eq_true, Bool.or_eq_true]; exact Or.inl (Or.inl hj))]
        rfl
    · rw [if_neg hj, if_neg hj]

/-- Witness for the amended C2 at a concrete JSON response. -/
theorem claim_C2_witness :
    processResponseText emptyState jsonResp = responseJsonOnlySpec emptyState jsonResp :=
  claim_C2_json_only_when_no_form emptyState jsonResp (by decide)

/-- A set-cookie line whose first `;` comes before any `=` (a valueless cookie
followed by an attribute). -/
def oddSetCookieLine : String := "set-cookie: sid; Path=/"

/-- Counterexample to claim C3: on `set-cookie: sid; Path=/` the code records
the cookie name `sid; Path` — a name containing `;` and attribute text —
because it splits at the first `=` before truncating at `;`, while
truncation-first parsing would find no `=` and record nothing. -/
theorem claim_C3_counterexample :
    "sid; Path" ∈ (parseCookies emptyState oddSetCookieLine).cookies
  ∧ (';' : Char) ∈ "sid; Path".toList
  ∧ splitFirstL '=' (firstPartL ';' (pyStripL (oddSetCookieLine.toList.drop 11))) = none :=
  ⟨by decide, by decide, by decide⟩

/-- Amended claim C3: the set-cookie branch splits the stripped remainder at
its first `=` and then truncates the value at its first `;`; whenever the
portion before the first `;` contains an `=` (every ordinary header, e.g.
`set-cookie: sid=abc123; Path=/; Secure`), this agrees with truncation-first
parsing and the recorded name contains no `;`. -/
theorem claim_C3_set_cookie (s : AggState) (line n v : List Char)
    (hpre : startsWithL (pyLowerL line) ("set-cookie:".toList) = true)
    (h : splitFirstL '=' (firstPartL ';' (pyStripL (line.drop 11))) = some (n, v)) :
    parseCookiesLine s line
      = addCookiePair s (String.mk (pyStripL n)) (String.mk (pyStripL v))
  ∧ (';' : Char) ∉ pyStripL n := by
  obtain ⟨w, hw, hfp⟩ := setCookie_split_agree h
  constructor
  · unfold parseCookiesLine
    rw [if_neg (by rw [setCookie_not_cookie hpre]; exact Bool.false_ne_true),
      if_pos hpre, hw]
    dsimp only
    rw [hfp]
  · intro hmem
    have h1 : (';' : Char) ∈ n := mem_of_mem_pyStripL hmem
    have h2 := (splitFirstL_eq_some.mp h).1
    have h3 : (';' : Char) ∈ firstPartL ';' (pyStripL (line.drop 11)) := by
      rw [h2]
      simp [h1]
    exact not_mem_firstPartL ';' _ h3

/-- Witness for the amended C3 at the spec's worked example. -/
theorem claim_C3_witness :
    parseCookiesLine emptyState ("set-cookie: sid=abc123; Path=/; Secure".toList)
      = addCookiePair emptyState (String.mk (pyStripL ("sid".toList)))
          (String.mk (pyStripL ("abc123".toList)))
  ∧ (';' : Char) ∉ pyStripL ("sid".toList) :=
  claim_C3_set_cookie emptyState ("set-cookie: sid=abc123; Path=/; Secure".toList)
    ("sid".toList) ("abc123".toList) (by decide) (by decide)

/-- A cookie line with whitespace around a value. -/
def wsCookieLine : String := "cookie: a= 1 ; b=2"

/-- Counterexample to claim C4: the code strips whitespace from the value as
well — for the segment `a= 1 ` the recorded value is `1`, not ` 1 `. -/
theorem claim_C4_counterexample :
    ("a", "1") ∈ (parseCookies emptyState wsCookieLine).cookieValues
  ∧ ("a", " 1 ") ∉ (parseCookies emptyState wsCookieLine).cookieValues :=
  ⟨by decide, by decide⟩

/-- Amended claim C4: for every `cookie:` header line, each `;`-separated
segment containing `=` is split at its first `=` and recorded with
surrounding whitespace trimmed from BOTH the name and the value. -/
theorem claim_C4_cookie_line (s : AggState) (line : List Char)
    (hpre : startsWithL (pyLowerL line) ("cookie:".toList) = true) :
    (parseCookiesLine s line).cookieValues
      = s.cookieValues ∪ (cookieLinePairs line).toFinset
  ∧ (parseCookiesLine s line).cookies
      = s.cookies ∪ ((cookieLinePairs line).map Prod.fst).toFinset
  ∧ (parseCookiesLine s line).params = s.params
  ∧ ∀ n v : String, (n, v) ∈ cookieLinePairs line ↔
      ∃ seg ∈ splitAllL ';' (pyStripL (line.drop 7)), ∃ a b,
        splitFirstL '=' seg = some (a, b)
          ∧ n = String.mk (pyStripL a) ∧ v = String.mk (pyStripL b) := by
  rw [parseCookiesLine_cookie_branch s line hpre]
  exact ⟨cookiePairsFold_cookieValues _ _, cookiePairsFold_cookies _ _,
    cookiePairsFold_params _ _, fun n v => mem_cookieLinePairs⟩

/-- Witness for the amended C4 at the whitespace example. -/
theorem claim_C4_witness :
    (parseCookiesLine emptyState (wsCookieLine.toList)).cookieValues
      = emptyState.cookieValues ∪ (cookieLinePairs (wsCookieLine.toList)).toFinset
  ∧ ("a", "1") ∈ cookieLinePairs (wsCookieLine.toList) :=
  ⟨(claim_C4_cookie_line emptyState (wsCookieLine.toList) (by decide)).1, by decide⟩
